import Mathlib

/-!
Verification of the moon_calculator core (`src/moon_calculator.py`).

The three pure components are embedded shallowly:

* `moon_phase_name` — the phase classifier (lines 48–68), over exact
  rationals.  Python's float modulo `a % m` (floor-based, residue with the
  sign of `m`) is modelled by `pymod`.
* `moon_illumination_pct` — the cosine illumination approximator
  (lines 71–75), over the reals since it calls `math.cos`.
* `unicode_moon_rows` / `unicode_moon` — the disc renderer (lines 78–146).
  Grid production is a `mapM` in the `Except` monad so that Python's
  `ZeroDivisionError` (raised by the `/(height-1)` and `/(width-1)`
  normalisations when the divisor is zero) is an explicit error value.
-/

/-- Synodic month length: the source constant `SYNODIC_MONTH = 29.53058867`
(line 40). -/
def SYNODIC_MONTH : ℚ := 29.53058867

/-- Python's modulo on reals: `a % m = a - m * floor (a / m)`, giving a
residue with the sign of `m` (used at line 50 as `age_days % SYNODIC_MONTH`). -/
def pymod (a m : ℚ) : ℚ := a - m * ⌊a / m⌋

/-- Embedding of `moon_phase_name` (lines 48–68): reduce the lunar age
modulo the synodic month, then an ordered threshold lookup. -/
def moon_phase_name (age_days : ℚ) : String :=
  let a := pymod age_days SYNODIC_MONTH
  if a < 1 then "New Moon"
  else if a < 6 then "Waxing Crescent"
  else if a < 8 then "First Quarter"
  else if a < 13 then "Waxing Gibbous"
  else if a < 16 then "Full Moon"
  else if a < 21 then "Waning Gibbous"
  else if a < 23 then "Last Quarter"
  else if a < 29 then "Waning Crescent"
  else "New Moon"

/-- The phase threshold table exactly as the spec writes it (§4.1): nine
half-open intervals of reduced age, compared against `moon_phase_name`. -/
def specPhaseTable (a : ℚ) : String :=
  if 0 ≤ a ∧ a < 1 then "New Moon"
  else if 1 ≤ a ∧ a < 6 then "Waxing Crescent"
  else if 6 ≤ a ∧ a < 8 then "First Quarter"
  else if 8 ≤ a ∧ a < 13 then "Waxing Gibbous"
  else if 13 ≤ a ∧ a < 16 then "Full Moon"
  else if 16 ≤ a ∧ a < 21 then "Waning Gibbous"
  else if 21 ≤ a ∧ a < 23 then "Last Quarter"
  else if 23 ≤ a ∧ a < 29 then "Waning Crescent"
  else if 29 ≤ a ∧ a < SYNODIC_MONTH then "New Moon"
  else "OUT OF RANGE"

lemma SYNODIC_MONTH_pos : (0 : ℚ) < SYNODIC_MONTH := by
  rw [SYNODIC_MONTH]; norm_num

lemma twentynine_lt_SYNODIC_MONTH : (29 : ℚ) < SYNODIC_MONTH := by
  rw [SYNODIC_MONTH]; norm_num

lemma pymod_eq_mul_fract (a m : ℚ) (hm : m ≠ 0) :
    pymod a m = m * Int.fract (a / m) := by
  rw [pymod, Int.fract]
  field_simp

lemma pymod_nonneg (a m : ℚ) (hm : 0 < m) : 0 ≤ pymod a m := by
  rw [pymod_eq_mul_fract a m hm.ne.symm]
  exact mul_nonneg hm.le (Int.fract_nonneg _)

lemma pymod_lt (a m : ℚ) (hm : 0 < m) : pymod a m < m := by
  rw [pymod_eq_mul_fract a m hm.ne.symm]
  calc m * Int.fract (a / m) < m * 1 :=
        (mul_lt_mul_left hm).mpr (Int.fract_lt_one _)
    _ = m := mul_one m

lemma pymod_eq_self (a m : ℚ) (h0 : 0 ≤ a) (h1 : a < m) : pymod a m = a := by
  have hm : 0 < m := lt_of_le_of_lt h0 h1
  have hfloor : ⌊a / m⌋ = 0 := by
    rw [Int.floor_eq_zero_iff]
    constructor
    · exact div_nonneg h0 hm.le
    · rw [div_lt_one hm]; exact h1
  rw [pymod, hfloor]
  push_cast
  ring

lemma pymod_add_int_mul (a m : ℚ) (k : ℤ) (hm : m ≠ 0) :
    pymod (a + k * m) m = pymod a m := by
  have hdiv : (a + k * m) / m = a / m + k := by
    field_simp
  rw [pymod, pymod, hdiv, Int.floor_add_int]
  push_cast
  ring

/-- Classification depends only on the reduced age. -/
lemma moon_phase_name_pymod (age : ℚ) :
    moon_phase_name age = moon_phase_name (pymod age SYNODIC_MONTH) := by
  have h0 : 0 ≤ pymod age SYNODIC_MONTH := pymod_nonneg _ _ SYNODIC_MONTH_pos
  have h1 : pymod age SYNODIC_MONTH < SYNODIC_MONTH := pymod_lt _ _ SYNODIC_MONTH_pos
  rw [moon_phase_name, moon_phase_name, pymod_eq_self _ _ h0 h1]

/-- On the reduced range the classifier agrees with the spec's table. -/
lemma classify_eq_spec (a : ℚ) (h0 : 0 ≤ a) (h1 : a < SYNODIC_MONTH) :
    moon_phase_name a = specPhaseTable a := by
  have hpy : pymod a SYNODIC_MONTH = a := pymod_eq_self _ _ h0 h1
  simp only [moon_phase_name, specPhaseTable, hpy]
  rcases lt_or_le a 1 with h | ha1
  · rw [if_pos h, if_pos ⟨h0, h⟩]
  rw [if_neg (not_lt.mpr ha1),
    if_neg (fun hc : 0 ≤ a ∧ a < 1 => absurd hc.2 (not_lt.mpr ha1))]
  rcases lt_or_le a 6 with h | ha6
  · rw [if_pos h, if_pos ⟨ha1, h⟩]
  rw [if_neg (not_lt.mpr ha6),
    if_neg (fun hc : 1 ≤ a ∧ a < 6 => absurd hc.2 (not_lt.mpr ha6))]
  rcases lt_or_le a 8 with h | ha8
  · rw [if_pos h, if_pos ⟨ha6, h⟩]
  rw [if_neg (not_lt.mpr ha8),
    if_neg (fun hc : 6 ≤ a ∧ a < 8 => absurd hc.2 (not_lt.mpr ha8))]
  rcases lt_or_le a 13 with h | ha13
  · rw [if_pos h, if_pos ⟨ha8, h⟩]
  rw [if_neg (not_lt.mpr ha13),
    if_neg (fun hc : 8 ≤ a ∧ a < 13 => absurd hc.2 (not_lt.mpr ha13))]
  rcases lt_or_le a 16 with h | ha16
  · rw [if_pos h, if_pos ⟨ha13, h⟩]
  rw [if_neg (not_lt.mpr ha16),
    if_neg (fun hc : 13 ≤ a ∧ a < 16 => absurd hc.2 (not_lt.mpr ha16))]
  rcases lt_or_le a 21 with h | ha21
  · rw [if_pos h, if_pos ⟨ha16, h⟩]
  rw [if_neg (not_lt.mpr ha21),
    if_neg (fun hc : 16 ≤ a ∧ a < 21 => absurd hc.2 (not_lt.mpr ha21))]
  rcases lt_or_le a 23 with h | ha23
  · rw [if_pos h, if_pos ⟨ha21, h⟩]
  rw [if_neg (not_lt.mpr ha23),
    if_neg (fun hc : 21 ≤ a ∧ a < 23 => absurd hc.2 (not_lt.mpr ha23))]
  rcases lt_or_le a 29 with h | ha29
  · rw [if_pos h, if_pos ⟨ha23, h⟩]
  rw [if_neg (not_lt.mpr ha29),
    if_neg (fun hc : 23 ≤ a ∧ a < 29 => absurd hc.2 (not_lt.mpr ha29)),
    if_pos ⟨ha29, h1⟩]

/-- C3: the classifier reduces to a non-negative residue in
`[0, SYNODIC_MONTH)` and agrees with the spec's threshold table there; the
four concrete scenario values hold. -/
theorem moon_phase_name_correct :
    (∀ age : ℚ, 0 ≤ pymod age SYNODIC_MONTH ∧
      pymod age SYNODIC_MONTH < SYNODIC_MONTH ∧
      moon_phase_name age = specPhaseTable (pymod age SYNODIC_MONTH)) ∧
    moon_phase_name (1/2) = "New Moon" ∧
    moon_phase_name (29/2) = "Full Moon" ∧
    moon_phase_name 7 = "First Quarter" ∧
    moon_phase_name 22 = "Last Quarter" := by
  have hcv : ∀ a : ℚ, 0 ≤ a → a ≤ 29 → moon_phase_name a = specPhaseTable a := by
    intro a h0 h29
    exact classify_eq_spec a h0 (lt_of_le_of_lt h29 twentynine_lt_SYNODIC_MONTH)
  refine ⟨?_, ?_, ?_, ?_, ?_⟩
  · intro age
    have h0 : 0 ≤ pymod age SYNODIC_MONTH := pymod_nonneg _ _ SYNODIC_MONTH_pos
    have h1 : pymod age SYNODIC_MONTH < SYNODIC_MONTH := pymod_lt _ _ SYNODIC_MONTH_pos
    exact ⟨h0, h1, (moon_phase_name_pymod age).trans (classify_eq_spec _ h0 h1)⟩
  · rw [hcv (1/2) (by norm_num) (by norm_num), specPhaseTable]
    norm_num
  · rw [hcv (29/2) (by norm_num) (by norm_num), specPhaseTable]
    norm_num
  · rw [hcv 7 (by norm_num) (by norm_num), specPhaseTable]
    norm_num
  · rw [hcv 22 (by norm_num) (by norm_num), specPhaseTable]
    norm_num

/-- C5 counterexample: the preimage of "New Moon" within `[0, SYNODIC_MONTH)`
is not a single contiguous interval: it contains 0 and 29 but not 15. -/
theorem moon_phase_partition_counterexample :
    moon_phase_name 0 = "New Moon" ∧ moon_phase_name 29 = "New Moon" ∧
    moon_phase_name 15 ≠ "New Moon" ∧
    (0 : ℚ) < 15 ∧ (15 : ℚ) < 29 ∧ (29 : ℚ) < SYNODIC_MONTH := by
  have e0 : moon_phase_name 0 = specPhaseTable 0 :=
    classify_eq_spec 0 (by norm_num) SYNODIC_MONTH_pos
  have e29 : moon_phase_name 29 = specPhaseTable 29 :=
    classify_eq_spec 29 (by norm_num) twentynine_lt_SYNODIC_MONTH
  have e15 : moon_phase_name 15 = specPhaseTable 15 :=
    classify_eq_spec 15 (by norm_num)
      (lt_trans (by norm_num) twentynine_lt_SYNODIC_MONTH)
  refine ⟨?_, ?_, ?_, by norm_num, by norm_num, twentynine_lt_SYNODIC_MONTH⟩
  · rw [e0, specPhaseTable]; norm_num
  · rw [e29, specPhaseTable]; norm_num [SYNODIC_MONTH]
  · rw [e15, specPhaseTable]
    norm_num
    decide

/-- C5 amended: on `[0, SYNODIC_MONTH)` the classifier realises the nine-row
table: each name's preimage is one half-open interval, except "New Moon"
whose preimage is the union `[0,1) ∪ [29, SYNODIC_MONTH)`. -/
theorem moon_phase_partition_amended (a : ℚ) (h0 : 0 ≤ a)
    (h1 : a < SYNODIC_MONTH) :
    (moon_phase_name a = "New Moon" ↔ (a < 1 ∨ 29 ≤ a)) ∧
    (moon_phase_name a = "Waxing Crescent" ↔ (1 ≤ a ∧ a < 6)) ∧
    (moon_phase_name a = "First Quarter" ↔ (6 ≤ a ∧ a < 8)) ∧
    (moon_phase_name a = "Waxing Gibbous" ↔ (8 ≤ a ∧ a < 13)) ∧
    (moon_phase_name a = "Full Moon" ↔ (13 ≤ a ∧ a < 16)) ∧
    (moon_phase_name a = "Waning Gibbous" ↔ (16 ≤ a ∧ a < 21)) ∧
    (moon_phase_name a = "Last Quarter" ↔ (21 ≤ a ∧ a < 23)) ∧
    (moon_phase_name a = "Waning Crescent" ↔ (23 ≤ a ∧ a < 29)) := by
  rw [classify_eq_spec a h0 h1, specPhaseTable]
  split_ifs with c1 c2 c3 c4 c5 c6 c7 c8 c9
  all_goals first
    | ((first
        | obtain ⟨hl, hr⟩ := c1
        | obtain ⟨hl, hr⟩ := c2
        | obtain ⟨hl, hr⟩ := c3
        | obtain ⟨hl, hr⟩ := c4
        | obtain ⟨hl, hr⟩ := c5
        | obtain ⟨hl, hr⟩ := c6
        | obtain ⟨hl, hr⟩ := c7
        | obtain ⟨hl, hr⟩ := c8
        | obtain ⟨hl, hr⟩ := c9)
       refine ⟨?_, ?_, ?_, ?_, ?_, ?_, ?_, ?_⟩ <;>
       first
         | exact iff_of_true rfl ⟨by linarith, by linarith⟩
         | exact iff_of_true rfl (Or.inl (by linarith))
         | exact iff_of_true rfl (Or.inr (by linarith))
         | exact iff_of_false (by decide) (by rintro ⟨u, v⟩; linarith)
         | exact iff_of_false (by decide) (by rintro (u | u) <;> linarith))
    | (exfalso
       have k1 : (1 : ℚ) ≤ a := le_of_not_lt fun hh => c1 ⟨h0, hh⟩
       have k2 : (6 : ℚ) ≤ a := le_of_not_lt fun hh => c2 ⟨k1, hh⟩
       have k3 : (8 : ℚ) ≤ a := le_of_not_lt fun hh => c3 ⟨k2, hh⟩
       have k4 : (13 : ℚ) ≤ a := le_of_not_lt fun hh => c4 ⟨k3, hh⟩
       have k5 : (16 : ℚ) ≤ a := le_of_not_lt fun hh => c5 ⟨k4, hh⟩
       have k6 : (21 : ℚ) ≤ a := le_of_not_lt fun hh => c6 ⟨k5, hh⟩
       have k7 : (23 : ℚ) ≤ a := le_of_not_lt fun hh => c7 ⟨k6, hh⟩
       have k8 : (29 : ℚ) ≤ a := le_of_not_lt fun hh => c8 ⟨k7, hh⟩
       exact c9 ⟨k8, h1⟩)

/-- Witness for the amended C5 theorem at the concrete reduced age 14.5. -/
theorem moon_phase_partition_amended_witness :
    (0 ≤ (29/2 : ℚ)) ∧ ((29/2 : ℚ) < SYNODIC_MONTH) ∧
    ((moon_phase_name (29/2) = "New Moon" ↔
        ((29/2 : ℚ) < 1 ∨ 29 ≤ (29/2 : ℚ))) ∧
     (moon_phase_name (29/2) = "Waxing Crescent" ↔
        (1 ≤ (29/2 : ℚ) ∧ (29/2 : ℚ) < 6)) ∧
     (moon_phase_name (29/2) = "First Quarter" ↔
        (6 ≤ (29/2 : ℚ) ∧ (29/2 : ℚ) < 8)) ∧
     (moon_phase_name (29/2) = "Waxing Gibbous" ↔
        (8 ≤ (29/2 : ℚ) ∧ (29/2 : ℚ) < 13)) ∧
     (moon_phase_name (29/2) = "Full Moon" ↔
        (13 ≤ (29/2 : ℚ) ∧ (29/2 : ℚ) < 16)) ∧
     (moon_phase_name (29/2) = "Waning Gibbous" ↔
        (16 ≤ (29/2 : ℚ) ∧ (29/2 : ℚ) < 21)) ∧
     (moon_phase_name (29/2) = "Last Quarter" ↔
        (21 ≤ (29/2 : ℚ) ∧ (29/2 : ℚ) < 23)) ∧
     (moon_phase_name (29/2) = "Waning Crescent" ↔
        (23 ≤ (29/2 : ℚ) ∧ (29/2 : ℚ) < 29))) :=
  ⟨by norm_num, by rw [SYNODIC_MONTH]; norm_num,
   moon_phase_partition_amended (29/2) (by norm_num)
     (by rw [SYNODIC_MONTH]; norm_num)⟩

/-- C4: the classifier is periodic in the synodic month. -/
theorem moon_phase_name_periodic (age : ℚ) (k : ℤ) :
    moon_phase_name age = moon_phase_name (age + k * SYNODIC_MONTH) := by
  rw [moon_phase_name_pymod, moon_phase_name_pymod (age + k * SYNODIC_MONTH),
    pymod_add_int_mul age SYNODIC_MONTH k SYNODIC_MONTH_pos.ne.symm]

/-- Embedding of `moon_illumination_pct` (lines 71–75): cosine illumination
approximation from lunar age, returned as a percentage (`frac * 100.0`). -/
noncomputable def moon_illumination_pct (age_days : ℝ) : ℝ :=
  let phase_angle := 2 * Real.pi * (age_days / (SYNODIC_MONTH : ℝ))
  let frac := (1 - Real.cos phase_angle) / 2
  frac * 100

/-- The orchestrator's fallback path (line 160):
`illum_frac = moon_illumination_pct(age) / 100.0`. -/
noncomputable def fallback_illum_frac (age : ℝ) : ℝ :=
  moon_illumination_pct age / 100

lemma SYNODIC_MONTH_real_pos : (0 : ℝ) < (SYNODIC_MONTH : ℝ) := by
  exact_mod_cast SYNODIC_MONTH_pos

lemma moon_illumination_pct_eq (age : ℝ) :
    moon_illumination_pct age
      = 50 * (1 - Real.cos (2 * Real.pi * (age / (SYNODIC_MONTH : ℝ)))) := by
  rw [moon_illumination_pct]
  ring

lemma moon_illumination_pct_at_half :
    moon_illumination_pct ((SYNODIC_MONTH : ℝ) / 2) = 100 := by
  have harg : ((SYNODIC_MONTH : ℝ) / 2) / (SYNODIC_MONTH : ℝ) = 1 / 2 := by
    field_simp [SYNODIC_MONTH_real_pos.ne.symm]
    ring
  rw [moon_illumination_pct_eq, harg]
  have : 2 * Real.pi * (1 / 2 : ℝ) = Real.pi := by ring
  rw [this, Real.cos_pi]
  norm_num

/-- C1 counterexample: at half a synodic month the function returns 100, not
the fraction `(1 - cos(π))/2 = 1`, and its value is not in `[0,1]`. -/
theorem moon_illumination_pct_not_fraction :
    moon_illumination_pct ((SYNODIC_MONTH : ℝ) / 2) = 100 ∧
    moon_illumination_pct ((SYNODIC_MONTH : ℝ) / 2)
      ≠ (1 - Real.cos (2 * Real.pi *
          (((SYNODIC_MONTH : ℝ) / 2) / (SYNODIC_MONTH : ℝ)))) / 2 ∧
    ¬ moon_illumination_pct ((SYNODIC_MONTH : ℝ) / 2) ≤ 1 := by
  have h100 := moon_illumination_pct_at_half
  have harg : ((SYNODIC_MONTH : ℝ) / 2) / (SYNODIC_MONTH : ℝ) = 1 / 2 := by
    field_simp [SYNODIC_MONTH_real_pos.ne.symm]
    ring
  have hfrac : (1 - Real.cos (2 * Real.pi *
      (((SYNODIC_MONTH : ℝ) / 2) / (SYNODIC_MONTH : ℝ)))) / 2 = 1 := by
    rw [harg]
    have : 2 * Real.pi * (1 / 2 : ℝ) = Real.pi := by ring
    rw [this, Real.cos_pi]
    norm_num
  refine ⟨h100, ?_, ?_⟩
  · rw [h100, hfrac]; norm_num
  · rw [h100]; norm_num

/-- C1 amended: `moon_illumination_pct` returns one hundred times the cosine
fraction, a value in `[0, 100]`, with value 0 at age 0, 100 at half a synodic
month, and 0 at a full synodic month. -/
theorem moon_illumination_pct_amended :
    (∀ age : ℝ, moon_illumination_pct age
        = 100 * ((1 - Real.cos (2 * Real.pi * (age / (SYNODIC_MONTH : ℝ)))) / 2) ∧
      0 ≤ moon_illumination_pct age ∧ moon_illumination_pct age ≤ 100) ∧
    moon_illumination_pct 0 = 0 ∧
    moon_illumination_pct ((SYNODIC_MONTH : ℝ) / 2) = 100 ∧
    moon_illumination_pct (SYNODIC_MONTH : ℝ) = 0 := by
  refine ⟨fun age => ⟨?_, ?_, ?_⟩, ?_, moon_illumination_pct_at_half, ?_⟩
  · rw [moon_illumination_pct_eq]; ring
  · rw [moon_illumination_pct_eq]
    have := Real.cos_le_one (2 * Real.pi * (age / (SYNODIC_MONTH : ℝ)))
    linarith
  · rw [moon_illumination_pct_eq]
    have := Real.neg_one_le_cos (2 * Real.pi * (age / (SYNODIC_MONTH : ℝ)))
    linarith
  · rw [moon_illumination_pct_eq]
    norm_num
  · rw [moon_illumination_pct_eq,
      div_self SYNODIC_MONTH_real_pos.ne.symm, mul_one, Real.cos_two_pi]
    norm_num

/-- C9: `moon_illumination_pct` is the percentage `50·(1 − cos θ)`, bounded
in `[0, 100]`, and the orchestrator's fallback divides it by 100, yielding an
illumination fraction in `[0, 1]`. -/
theorem moon_illumination_pct_and_fallback (age : ℝ) :
    moon_illumination_pct age
      = 50 * (1 - Real.cos (2 * Real.pi * (age / (SYNODIC_MONTH : ℝ)))) ∧
    0 ≤ moon_illumination_pct age ∧ moon_illumination_pct age ≤ 100 ∧
    fallback_illum_frac age = moon_illumination_pct age / 100 ∧
    0 ≤ fallback_illum_frac age ∧ fallback_illum_frac age ≤ 1 := by
  have hle := Real.cos_le_one (2 * Real.pi * (age / (SYNODIC_MONTH : ℝ)))
  have hge := Real.neg_one_le_cos (2 * Real.pi * (age / (SYNODIC_MONTH : ℝ)))
  have h0 : 0 ≤ moon_illumination_pct age := by
    rw [moon_illumination_pct_eq]; linarith
  have h100 : moon_illumination_pct age ≤ 100 := by
    rw [moon_illumination_pct_eq]; linarith
  refine ⟨moon_illumination_pct_eq age, h0, h100, rfl, ?_, ?_⟩
  · rw [fallback_illum_frac]; positivity
  · rw [fallback_illum_frac]
    linarith

/-- Fully illuminated glyph (line 96). -/
def FULL : Char := '█'

/-- Stronger lit-edge glyph (line 97). -/
def EDGE2 : Char := '▓'

/-- Softest edge glyph (line 98). -/
def EDGE1 : Char := '▒'

/-- Unilluminated interior glyph (line 99). -/
def DARK : Char := '░'

/-- Outside-the-disc glyph (line 100). -/
def OUT : Char := ' '

/-- Innermost soft-edge thickness (line 103). -/
def t1 : ℚ := 0.025

/-- Wider soft-edge thickness (line 104). -/
def t2 : ℚ := 0.07

/-- Clamp of the illumination fraction and terminator offset
`b = 1 - 2*illum_frac` (lines 85–89). -/
def bOf (illum_frac : ℚ) : ℚ := 1 - 2 * max 0 (min 1 illum_frac)

/-- Column abscissa `x = 2i/(width-1) - 1` (line 114). -/
def xCoord (width : ℤ) (i : ℕ) : ℚ := 2 * (i : ℚ) / ((width : ℚ) - 1) - 1

/-- Row ordinate `y = 2j/(height-1) - 1` with the fixed `1.15` vertical
stretch (lines 109–110). -/
def yAdj (height : ℤ) (j : ℕ) : ℚ :=
  (2 * (j : ℚ) / ((height : ℚ) - 1) - 1) * 1.15

/-- Glyph choice for one interior/exterior cell (lines 117–142). -/
def moonCell (b : ℚ) (waxing : Bool) (y_adj x : ℚ) : Char :=
  if x * x + y_adj * y_adj > 1 then OUT
  else
    let term := if waxing then b else -b
    let dist := x - term
    let lit : Bool := if waxing then decide (dist > 0) else decide (dist < 0)
    let adist := |dist|
    if lit then
      if adist < t1 then EDGE1
      else if adist < t2 then EDGE2
      else FULL
    else
      if adist < t2 then EDGE1
      else DARK

/-- The failure condition of the renderer. -/
inductive RenderError where
  | zeroDivision
deriving DecidableEq

/-- Embedding of `unicode_moon`'s nested loops (lines 106–144), producing
the list of rows of glyphs.  A Python `ZeroDivisionError` from the
`/(height-1)` and `/(width-1)` normalisations is an `Except.error`. -/
def unicode_moon_rows (illum_frac : ℚ) (waxing : Bool) (width height : ℤ) :
    Except RenderError (List (List Char)) :=
  (List.range height.toNat).mapM fun j =>
    if (height : ℚ) - 1 = 0 then Except.error RenderError.zeroDivision
    else
      (List.range width.toNat).mapM fun i =>
        if (width : ℚ) - 1 = 0 then Except.error RenderError.zeroDivision
        else Except.ok
          (moonCell (bOf illum_frac) waxing (yAdj height j) (xCoord width i))

/-- Embedding of `unicode_moon`'s returned string: the rows joined by
newlines (line 146). -/
def unicode_moon (illum_frac : ℚ) (waxing : Bool) (width height : ℤ) :
    Except RenderError String :=
  (unicode_moon_rows illum_frac waxing width height).map
    fun rows => String.intercalate "\n" (rows.map fun r => String.mk r)

/-- The grid the renderer produces when both dimensions are non-degenerate. -/
def moonGrid (illum_frac : ℚ) (waxing : Bool) (width height : ℤ) :
    List (List Char) :=
  (List.range height.toNat).map fun j =>
    (List.range width.toNat).map fun i =>
      moonCell (bOf illum_frac) waxing (yAdj height j) (xCoord width i)

lemma mapM_ok_eq_map {α β : Type} (f : α → β) (l : List α) :
    (l.mapM fun a => (Except.ok (f a) : Except RenderError β))
      = Except.ok (l.map f) := by
  induction l with
  | nil => rfl
  | cons a l ih => rw [List.mapM_cons, ih]; rfl

lemma mapM_cons_error {α β : Type} (F : α → Except RenderError β) (a : α)
    (l : List α) (hFa : F a = Except.error RenderError.zeroDivision) :
    (a :: l).mapM F = Except.error RenderError.zeroDivision := by
  rw [List.mapM_cons, hFa]; rfl

lemma int_cast_sub_one_ne (z : ℤ) (hz : z ≠ 1) : ¬((z : ℚ) - 1 = 0) := by
  intro hc
  apply hz
  have : (z : ℚ) = 1 := by linarith
  exact_mod_cast this

lemma unicode_moon_rows_ok (f : ℚ) (wax : Bool) (w h : ℤ)
    (hw : w ≠ 1) (hh : h ≠ 1) :
    unicode_moon_rows f wax w h = Except.ok (moonGrid f wax w h) := by
  rw [unicode_moon_rows, moonGrid]
  simp only [if_neg (int_cast_sub_one_ne h hh), if_neg (int_cast_sub_one_ne w hw)]
  have hinner : ∀ j : ℕ,
      ((List.range w.toNat).mapM fun i =>
        (Except.ok (moonCell (bOf f) wax (yAdj h j) (xCoord w i)) :
          Except RenderError Char))
      = Except.ok ((List.range w.toNat).map fun i =>
          moonCell (bOf f) wax (yAdj h j) (xCoord w i)) :=
    fun j => mapM_ok_eq_map _ _
  simp only [hinner]
  exact mapM_ok_eq_map _ _

lemma unicode_moon_rows_h_nonpos (f : ℚ) (wax : Bool) (w h : ℤ)
    (hh : h ≤ 0) : unicode_moon_rows f wax w h = Except.ok [] := by
  rw [unicode_moon_rows, Int.toNat_of_nonpos hh]
  rfl

lemma unicode_moon_rows_h_one (f : ℚ) (wax : Bool) (w : ℤ) :
    unicode_moon_rows f wax w 1 = Except.error RenderError.zeroDivision := by
  rw [unicode_moon_rows, show ((1 : ℤ).toNat) = 1 from rfl,
    show (List.range 1) = [0] from rfl]
  apply mapM_cons_error
  dsimp only
  rw [if_pos (by norm_num : ((1 : ℤ) : ℚ) - 1 = 0)]

lemma unicode_moon_rows_w_one (f : ℚ) (wax : Bool) (h : ℤ) (hh2 : 2 ≤ h) :
    unicode_moon_rows f wax 1 h = Except.error RenderError.zeroDivision := by
  obtain ⟨n, hn⟩ : ∃ n, h.toNat = n + 1 := ⟨h.toNat - 1, by omega⟩
  rw [unicode_moon_rows, hn, List.range_succ_eq_map]
  apply mapM_cons_error
  dsimp only
  rw [if_neg (int_cast_sub_one_ne h (by omega))]
  rw [show ((1 : ℤ).toNat) = 1 from rfl, show (List.range 1) = [0] from rfl]
  apply mapM_cons_error
  dsimp only
  rw [if_pos (by norm_num : ((1 : ℤ) : ℚ) - 1 = 0)]

lemma unicode_moon_rows_error_iff (f : ℚ) (wax : Bool) (w h : ℤ) :
    unicode_moon_rows f wax w h = Except.error RenderError.zeroDivision ↔
      (h = 1 ∨ (2 ≤ h ∧ w = 1)) := by
  constructor
  · intro he
    by_contra hc
    push_neg at hc
    obtain ⟨h1, h2⟩ := hc
    rcases le_or_lt h 0 with hle | hpos
    · rw [unicode_moon_rows_h_nonpos f wax w h hle] at he
      exact Except.noConfusion he
    · have hge2 : 2 ≤ h := by omega
      rw [unicode_moon_rows_ok f wax w h (h2 hge2) h1] at he
      exact Except.noConfusion he
  · rintro (rfl | ⟨hh2, rfl⟩)
    · exact unicode_moon_rows_h_one f wax w
    · exact unicode_moon_rows_w_one f wax h hh2

/-- C2 counterexample: for `height = 0` the renderer does not fail — it
returns the empty string (zero rows) — against the claim that any
`height < 2` fails. -/
theorem unicode_moon_height_zero_no_failure :
    unicode_moon (1/2) true 23 0 = Except.ok "" := by
  rw [unicode_moon, unicode_moon_rows_h_nonpos (1/2) true 23 0 le_rfl]
  rfl

/-- C2 amended: the renderer fails — with a division-by-zero condition, not
a dedicated InvalidDimensions check — exactly when `height = 1`, or
`height ≥ 2` and `width = 1`; all other inputs return normally (in
particular `height ≤ 0` yields an empty grid without failing). -/
theorem unicode_moon_failure_characterization (f : ℚ) (wax : Bool)
    (w h : ℤ) :
    (∃ e, unicode_moon f wax w h = Except.error e) ↔
      (h = 1 ∨ (2 ≤ h ∧ w = 1)) := by
  rw [unicode_moon]
  constructor
  · rintro ⟨e, he⟩
    cases hr : unicode_moon_rows f wax w h with
    | ok v =>
      rw [hr] at he
      exact Except.noConfusion he
    | error e' =>
      cases e'
      exact (unicode_moon_rows_error_iff f wax w h).mp hr
  · intro hcond
    rw [(unicode_moon_rows_error_iff f wax w h).mpr hcond]
    exact ⟨RenderError.zeroDivision, rfl⟩

/-- C6: for clamped-range illumination, either waxing state, and dimensions
at least 2×2, the renderer returns exactly `height` rows of exactly `width`
glyphs each. -/
theorem unicode_moon_grid_shape (f : ℚ) (wax : Bool) (w h : ℤ)
    (hf0 : 0 ≤ f) (hf1 : f ≤ 1) (hw : 2 ≤ w) (hh : 2 ≤ h) :
    ∃ rows, unicode_moon_rows f wax w h = Except.ok rows ∧
      (rows.length : ℤ) = h ∧ ∀ r ∈ rows, (r.length : ℤ) = w := by
  refine ⟨moonGrid f wax w h,
    unicode_moon_rows_ok f wax w h (by omega) (by omega), ?_, ?_⟩
  · rw [moonGrid]
    simp only [List.length_map, List.length_range]
    omega
  · intro r hr
    rw [moonGrid] at hr
    simp only [List.mem_map, List.mem_range] at hr
    obtain ⟨j, hj, rfl⟩ := hr
    simp only [List.length_map, List.length_range]
    omega

/-- Witness for the grid-shape theorem at illumination one half on a 2×2
grid. -/
theorem unicode_moon_grid_shape_witness :
    (0 ≤ (1/2 : ℚ)) ∧ ((1/2 : ℚ) ≤ 1) ∧ ((2 : ℤ) ≤ 2) ∧ ((2 : ℤ) ≤ 2) ∧
    ∃ rows, unicode_moon_rows (1/2) true 2 2 = Except.ok rows ∧
      (rows.length : ℤ) = 2 ∧ ∀ r ∈ rows, (r.length : ℤ) = 2 :=
  ⟨by norm_num, by norm_num, le_refl 2, le_refl 2,
   unicode_moon_grid_shape (1/2) true 2 2 (by norm_num) (by norm_num)
     le_rfl le_rfl⟩

lemma bOf_zero : bOf 0 = 1 := by rw [bOf]; norm_num

lemma bOf_one : bOf 1 = -1 := by rw [bOf]; norm_num

lemma bOf_half : bOf (1/2) = 0 := by rw [bOf]; norm_num

lemma moonCell_new_not_full (y x : ℚ) : moonCell 1 true y x ≠ FULL := by
  rw [moonCell]
  by_cases hout : x * x + y * y > 1
  · rw [if_pos hout]; decide
  · rw [if_neg hout]
    push_neg at hout
    have hx1 : x ≤ 1 := by nlinarith
    simp only [if_true, decide_eq_true_eq]
    rw [if_neg (by linarith : ¬(x - 1 > 0))]
    split_ifs <;> decide

lemma moonCell_full_not_dark (wax : Bool) (y x : ℚ) :
    moonCell (-1) wax y x ≠ DARK := by
  rw [moonCell]
  by_cases hout : x * x + y * y > 1
  · rw [if_pos hout]; decide
  · rw [if_neg hout]
    push_neg at hout
    have hxl : -1 ≤ x := by nlinarith
    have hxr : x ≤ 1 := by nlinarith
    cases wax with
    | true =>
      simp only [if_true, decide_eq_true_eq]
      by_cases hlit : x - (-1) > 0
      · rw [if_pos hlit]; split_ifs <;> decide
      · rw [if_neg hlit]
        push_neg at hlit
        have hxeq : x = -1 := by linarith
        rw [if_pos (by rw [hxeq]; norm_num [t2])]
        decide
    | false =>
      simp only [Bool.false_eq_true, if_false, decide_eq_true_eq]
      by_cases hlit : x - -(-1) < 0
      · rw [if_pos hlit]; split_ifs <;> decide
      · rw [if_neg hlit]
        push_neg at hlit
        have hxeq : x = 1 := by
          have h1 : (- -1 : ℚ) = 1 := by norm_num
          rw [h1] at hlit
          linarith
        rw [if_pos (by rw [hxeq]; norm_num [t2])]
        decide

/-- C7: at illumination 0 (waxing) no cell is the fully-lit glyph, and at
illumination 1 (either waxing state) no cell is the fully-dark glyph. -/
theorem unicode_moon_extreme_illumination (wax : Bool) (w h : ℤ)
    (hw : 2 ≤ w) (hh : 2 ≤ h) :
    ∃ rows0 rows1,
      unicode_moon_rows 0 true w h = Except.ok rows0 ∧
      (∀ r ∈ rows0, ∀ c ∈ r, c ≠ FULL) ∧
      unicode_moon_rows 1 wax w h = Except.ok rows1 ∧
      (∀ r ∈ rows1, ∀ c ∈ r, c ≠ DARK) := by
  refine ⟨moonGrid 0 true w h, moonGrid 1 wax w h,
    unicode_moon_rows_ok _ _ _ _ (by omega) (by omega), ?_,
    unicode_moon_rows_ok _ _ _ _ (by omega) (by omega), ?_⟩
  · intro r hr c hc
    rw [moonGrid] at hr
    simp only [List.mem_map, List.mem_range] at hr
    obtain ⟨j, hj, rfl⟩ := hr
    simp only [List.mem_map, List.mem_range] at hc
    obtain ⟨i, hi, rfl⟩ := hc
    rw [bOf_zero]
    exact moonCell_new_not_full _ _
  · intro r hr c hc
    rw [moonGrid] at hr
    simp only [List.mem_map, List.mem_range] at hr
    obtain ⟨j, hj, rfl⟩ := hr
    simp only [List.mem_map, List.mem_range] at hc
    obtain ⟨i, hi, rfl⟩ := hc
    rw [bOf_one]
    exact moonCell_full_not_dark _ _ _

/-- Witness for the extreme-illumination theorem on a 2×2 grid. -/
theorem unicode_moon_extreme_illumination_witness :
    ((2 : ℤ) ≤ 2) ∧ ((2 : ℤ) ≤ 2) ∧
    ∃ rows0 rows1,
      unicode_moon_rows 0 true 2 2 = Except.ok rows0 ∧
      (∀ r ∈ rows0, ∀ c ∈ r, c ≠ FULL) ∧
      unicode_moon_rows 1 true 2 2 = Except.ok rows1 ∧
      (∀ r ∈ rows1, ∀ c ∈ r, c ≠ DARK) :=
  ⟨le_refl 2, le_refl 2,
   unicode_moon_extreme_illumination true 2 2 le_rfl le_rfl⟩

lemma moonCell_mirror (y x : ℚ) :
    moonCell 0 false y (-x) = moonCell 0 true y x := by
  rw [moonCell, moonCell]
  simp only [if_true, Bool.false_eq_true, if_false, decide_eq_true_eq,
    neg_zero, sub_zero, neg_mul_neg, abs_neg]
  by_cases hout : x * x + y * y > 1
  · rw [if_pos hout, if_pos hout]
  · rw [if_neg hout, if_neg hout]
    by_cases hx : x > 0
    · rw [if_pos (by linarith : -x < 0), if_pos hx]
    · rw [if_neg (by intro hc; apply hx; linarith : ¬(-x < 0)), if_neg hx]

lemma moonCell_mirror_comm (y x : ℚ) :
    moonCell 0 false y x = moonCell 0 true y (-x) := by
  have hm := moonCell_mirror y (-x)
  rwa [neg_neg] at hm

lemma reverse_map_range {α : Type} (n : ℕ) (f : ℕ → α) :
    ((List.range n).map f).reverse
      = (List.range n).map fun i => f (n - 1 - i) := by
  induction n with
  | zero => rfl
  | succ m ih =>
    conv_rhs => rw [List.range_succ_eq_map, List.map_cons, List.map_map]
    conv_lhs => rw [List.range_succ, List.map_append, List.reverse_append, ih]
    simp only [List.map_singleton, List.reverse_singleton, List.singleton_append]
    congr 1
    apply List.map_congr_left
    intro a ha
    simp only [Function.comp_apply]
    congr 1
    omega

lemma xCoord_rev (w : ℤ) (hw : 2 ≤ w) (i : ℕ) (hi : i < w.toNat) :
    xCoord w (w.toNat - 1 - i) = -xCoord w i := by
  have hn : ((w.toNat : ℤ)) = w := Int.toNat_of_nonneg (by omega)
  have hcast : ((w.toNat : ℚ)) = (w : ℚ) := by
    exact_mod_cast congrArg (Int.cast : ℤ → ℚ) hn
  have hwq : (w : ℚ) - 1 ≠ 0 := int_cast_sub_one_ne w (by omega)
  rw [xCoord, xCoord]
  have hle : i ≤ w.toNat - 1 := by omega
  have h1le : 1 ≤ w.toNat := by omega
  rw [Nat.cast_sub hle, Nat.cast_sub h1le, Nat.cast_one, hcast]
  field_simp
  ring

/-- C8: at illumination one half the waning grid is exactly the left-right
mirror image of the waxing grid: reversing every row of the waxing grid
yields the waning grid. -/
theorem unicode_moon_half_mirror (w h : ℤ) (hw : 2 ≤ w) (hh : 2 ≤ h) :
    ∃ g1 g2, unicode_moon_rows (1/2) true w h = Except.ok g1 ∧
      unicode_moon_rows (1/2) false w h = Except.ok g2 ∧
      g2 = g1.map List.reverse := by
  refine ⟨moonGrid (1/2) true w h, moonGrid (1/2) false w h,
    unicode_moon_rows_ok _ _ _ _ (by omega) (by omega),
    unicode_moon_rows_ok _ _ _ _ (by omega) (by omega), ?_⟩
  rw [moonGrid, moonGrid, List.map_map]
  apply List.map_congr_left
  intro j hj
  simp only [Function.comp_apply]
  rw [reverse_map_range]
  apply List.map_congr_left
  intro i hi
  rw [bOf_half, xCoord_rev w hw i (List.mem_range.mp hi)]
  exact moonCell_mirror_comm _ _

/-- Witness for the half-illumination mirror theorem on a 2×2 grid. -/
theorem unicode_moon_half_mirror_witness :
    ((2 : ℤ) ≤ 2) ∧ ((2 : ℤ) ≤ 2) ∧
    ∃ g1 g2, unicode_moon_rows (1/2) true 2 2 = Except.ok g1 ∧
      unicode_moon_rows (1/2) false 2 2 = Except.ok g2 ∧
      g2 = g1.map List.reverse :=
  ⟨le_refl 2, le_refl 2, unicode_moon_half_mirror 2 2 le_rfl le_rfl⟩

lemma moonCell_outside (b : ℚ) (wax : Bool) (y x : ℚ) (hy : 1 < y * y) :
    moonCell b wax y x = OUT := by
  rw [moonCell, if_pos (by nlinarith : x * x + y * y > 1)]

lemma yAdj_zero_sq (h : ℤ) : 1 < yAdj h 0 * yAdj h 0 := by
  rw [yAdj]
  norm_num

lemma yAdj_last_sq (h : ℤ) (hh : 2 ≤ h) :
    1 < yAdj h (h.toNat - 1) * yAdj h (h.toNat - 1) := by
  have hn : ((h.toNat : ℤ)) = h := Int.toNat_of_nonneg (by omega)
  have hcast : ((h.toNat : ℚ)) = (h : ℚ) := by
    exact_mod_cast congrArg (Int.cast : ℤ → ℚ) hn
  have hq : (h : ℚ) - 1 ≠ 0 := int_cast_sub_one_ne h (by omega)
  rw [yAdj, Nat.cast_sub (by omega), Nat.cast_one, hcast]
  rw [mul_div_assoc, div_self hq]
  norm_num

/-- C10: with the fixed 1.15 vertical stretch the first and last rows of any
rendered grid consist entirely of the outside-disc blank glyph. -/
theorem unicode_moon_blank_border (f : ℚ) (wax : Bool) (w h : ℤ)
    (hw : 2 ≤ w) (hh : 2 ≤ h) :
    ∃ rows, unicode_moon_rows f wax w h = Except.ok rows ∧
      rows.length = h.toNat ∧
      ∀ (j : ℕ) (hj : j < rows.length), (j = 0 ∨ j = rows.length - 1) →
        ∀ c ∈ rows[j], c = OUT := by
  have hlen : (moonGrid f wax w h).length = h.toNat := by
    rw [moonGrid]
    simp only [List.length_map, List.length_range]
  refine ⟨moonGrid f wax w h,
    unicode_moon_rows_ok _ _ _ _ (by omega) (by omega), hlen, ?_⟩
  intro j hj hj01 c hc
  simp only [moonGrid, List.getElem_map, List.getElem_range] at hc
  simp only [List.mem_map, List.mem_range] at hc
  obtain ⟨i, hi, rfl⟩ := hc
  rcases hj01 with rfl | hjl
  · exact moonCell_outside _ _ _ _ (yAdj_zero_sq h)
  · rw [hlen] at hjl
    subst hjl
    exact moonCell_outside _ _ _ _ (yAdj_last_sq h hh)

/-- Witness for the blank-border theorem on a 2×2 grid. -/
theorem unicode_moon_blank_border_witness :
    ((2 : ℤ) ≤ 2) ∧ ((2 : ℤ) ≤ 2) ∧
    ∃ rows, unicode_moon_rows (1/2) true 2 2 = Except.ok rows ∧
      rows.length = (2 : ℤ).toNat ∧
      ∀ (j : ℕ) (hj : j < rows.length), (j = 0 ∨ j = rows.length - 1) →
        ∀ c ∈ rows[j], c = OUT :=
  ⟨le_refl 2, le_refl 2,
   unicode_moon_blank_border (1/2) true 2 2 le_rfl le_rfl⟩
